import Mathlib

/-!
Shallow embedding of the NES CPU core of the flemu repository
(`src/crates/hello/src/nes/cpu.rs`), together with proofs about it.

Conventions of the embedding:

* Machine integers (`u8`, `u16`) are embedded as `Nat`.  Operations the Rust
  source performs with wrapping semantics (`wrapping_add` on `u8`/`u16`,
  `as u8` truncation of a wider value) carry an explicit `% 256` or
  `% 65536`; a plain Rust `+` on an in-range value is plain `Nat` addition.
* Rust panics (array index out of bounds, `expect` on a missing opcode
  entry, the `panic!` in `get_operand_address`, the `todo!()` in the
  dispatch loop, and the slice bounds check in `load`) are embedded as
  `Fatal` errors; the payload of each `Fatal` constructor is exactly the
  data the source interpolates into the corresponding panic message.
* The source declares the memory as `memory: [u8; 0xFFFF]`, an array of
  0xFFFF = 65535 bytes; `MEM_SIZE` reproduces that length literally, and
  every array access checks against it exactly as Rust index checking does.
-/

namespace Flemu

/-- Addressing modes, from `enum AddressingMode` in `cpu.rs`. -/
inductive AddressingMode where
  | Immediate
  | ZeroPage
  | ZeroPage_X
  | ZeroPage_Y
  | Absolute
  | Absolute_X
  | Absolute_Y
  | Indirect_X
  | Indirect_Y
  | NoneAddressing
  deriving DecidableEq

/-- The fatal (panicking) outcomes of the CPU core.  Each constructor's
payload is exactly the data interpolated into the corresponding panic
message in `cpu.rs`:
* `unrecognizedOpcode code` — `expect("OpCode {:x} is not recognized", code)`
  in `run`; the message carries only the opcode byte.
* `unsupportedAddressingMode mode` — `panic!("mode {:?} is not supported",
  mode)` in `get_operand_address`; the message carries only the mode.
* `notYetImplemented` — the `todo!()` arm of the dispatch `match`; carries
  no data.
* `indexOutOfBounds index` — a Rust array index panic on the 65535-byte
  memory array.
* `loadOutOfBounds len` — the slice range check in `load` failing for an
  oversized program. -/
inductive Fatal where
  | unrecognizedOpcode (code : Nat)
  | unsupportedAddressingMode (mode : AddressingMode)
  | notYetImplemented
  | indexOutOfBounds (index : Nat)
  | loadOutOfBounds (len : Nat)
  deriving DecidableEq

/-- CPU state, from `struct CPU` in `cpu.rs`.  The memory array is embedded
as a function from addresses to byte values; its declared length (65535 in
the source, see `MEM_SIZE`) is enforced by the bounds check in `mem_read`
and `mem_write`, exactly where Rust's index checking enforces it. -/
structure CPU where
  register_a : Nat
  register_x : Nat
  register_y : Nat
  status : Nat
  program_counter : Nat
  memory : Nat → Nat

/-- Length of the memory array: the source declares `memory: [u8; 0xFFFF]`,
i.e. 0xFFFF = 65535 cells (not 65536). -/
def MEM_SIZE : Nat := 0xFFFF

/-- `const DEFAULT_PROGRAM_COUNTER: u16 = 0x8000` in `cpu.rs`. -/
def DEFAULT_PROGRAM_COUNTER : Nat := 0x8000

/-- `CPU::new()`: all registers zero, memory zero-filled. -/
def CPU.new : CPU :=
  { register_a := 0, register_x := 0, register_y := 0, status := 0,
    program_counter := 0, memory := fun _ => 0 }

/-- `mem_read`: `self.memory[addr as usize]`.  Rust array indexing panics
when the index is not below the array length. -/
def mem_read (c : CPU) (addr : Nat) : Except Fatal Nat :=
  if addr < MEM_SIZE then .ok (c.memory addr)
  else .error (.indexOutOfBounds addr)

/-- `mem_write`: `self.memory[addr as usize] = data`. -/
def mem_write (c : CPU) (addr data : Nat) : Except Fatal CPU :=
  if addr < MEM_SIZE then
    .ok { c with memory := fun a => if a = addr then data else c.memory a }
  else .error (.indexOutOfBounds addr)

/-- `mem_read_u16`: reads the low byte at `pos`, the high byte at `pos + 1`,
and assembles `(hi << 8) | lo`. -/
def mem_read_u16 (c : CPU) (pos : Nat) : Except Fatal Nat := do
  let lo ← mem_read c pos
  let hi ← mem_read c (pos + 1)
  return (hi <<< 8) ||| lo

/-- `mem_write_u16`: `hi = (data >> 8) as u8`, `lo = (data & 0xff) as u8`,
writes `lo` at `pos` and `hi` at `pos + 1`.  The `as u8` truncation is the
explicit `% 256`. -/
def mem_write_u16 (c : CPU) (pos data : Nat) : Except Fatal CPU := do
  let hi := (data >>> 8) % 256
  let lo := data &&& 0xff
  let c1 ← mem_write c pos lo
  mem_write c1 (pos + 1) hi

/-- `load`: copies the program into
`memory[0x8000 .. 0x8000 + program.len()]` (the `copy_from_slice` call,
whose slice bounds check panics when the range exceeds the array length),
then writes the reset vector `mem_write_u16(0xFFFC, 0x8000)`. -/
def load (c : CPU) (program : List Nat) : Except Fatal CPU :=
  if DEFAULT_PROGRAM_COUNTER + program.length ≤ MEM_SIZE then
    mem_write_u16
      { c with memory := fun a =>
          if DEFAULT_PROGRAM_COUNTER ≤ a then
            if a < DEFAULT_PROGRAM_COUNTER + program.length then
              program.getD (a - DEFAULT_PROGRAM_COUNTER) 0
            else c.memory a
          else c.memory a }
      0xFFFC DEFAULT_PROGRAM_COUNTER
  else .error (.loadOutOfBounds program.length)

/-- `reset`: clears the registers and the status byte and reloads the
program counter from the vector at 0xFFFC. -/
def reset (c : CPU) : Except Fatal CPU := do
  let pc ← mem_read_u16 c 0xFFFC
  return { c with register_a := 0, register_x := 0, register_y := 0,
                  status := 0, program_counter := pc }

/-- `update_zero_and_negative_flags`: sets/clears status bit 1 according to
`result == 0`, then sets/clears status bit 7 according to
`result & 0b1000_0000 != 0`. -/
def update_zero_and_negative_flags (c : CPU) (result : Nat) : CPU :=
  let s1 := if result = 0 then c.status ||| 0b10 else c.status &&& 0b11111101
  let s2 := if result &&& 0b10000000 ≠ 0 then s1 ||| 0b10000000
            else s1 &&& 0b01111111
  { c with status := s2 }

/-- `get_operand_address`, from `cpu.rs`.  `u8::wrapping_add` is `% 256`,
`u16::wrapping_add` is `% 65536`; an `as u16` widening of a `u8` value is
the identity. -/
def get_operand_address (c : CPU) (mode : AddressingMode) : Except Fatal Nat :=
  match mode with
  | .Immediate => .ok c.program_counter
  | .ZeroPage => mem_read c c.program_counter
  | .Absolute => mem_read_u16 c c.program_counter
  | .ZeroPage_X => do
      let pos ← mem_read c c.program_counter
      return (pos + c.register_x) % 256
  | .ZeroPage_Y => do
      let pos ← mem_read c c.program_counter
      return (pos + c.register_y) % 256
  | .Absolute_X => do
      let base ← mem_read_u16 c c.program_counter
      return (base + c.register_x) % 65536
  | .Absolute_Y => do
      let base ← mem_read_u16 c c.program_counter
      return (base + c.register_y) % 65536
  | .Indirect_X => do
      let base ← mem_read c c.program_counter
      let ptr := (base + c.register_x) % 256
      let lo ← mem_read c ptr
      let hi ← mem_read c ((ptr + 1) % 256)
      return (hi <<< 8) ||| lo
  | .Indirect_Y => do
      let base ← mem_read c c.program_counter
      let lo ← mem_read c base
      let hi ← mem_read c ((base + 1) % 256)
      return (((hi <<< 8) ||| lo) + c.register_y) % 65536
  | .NoneAddressing => .error (.unsupportedAddressingMode .NoneAddressing)

/-- `lda`: resolve the operand address, read the byte, store it into
`register_a`, update the zero and negative flags. -/
def lda (c : CPU) (mode : AddressingMode) : Except Fatal CPU := do
  let addr ← get_operand_address c mode
  let value ← mem_read c addr
  let c1 := { c with register_a := value }
  return update_zero_and_negative_flags c1 c1.register_a

/-- `sta`: resolve the operand address and write `register_a` there. -/
def sta (c : CPU) (mode : AddressingMode) : Except Fatal CPU := do
  let addr ← get_operand_address c mode
  mem_write c addr c.register_a

/-- `tax`: copy `register_a` into `register_x`, update flags. -/
def tax (c : CPU) : CPU :=
  let c1 := { c with register_x := c.register_a }
  update_zero_and_negative_flags c1 c1.register_x

/-- `inx`: `register_x = register_x.wrapping_add(1)`, update flags. -/
def inx (c : CPU) : CPU :=
  let c1 := { c with register_x := (c.register_x + 1) % 256 }
  update_zero_and_negative_flags c1 c1.register_x

/-- One entry of the opcode table: opcode byte, mnemonic, instruction
length in bytes, addressing mode. -/
structure OpCode where
  code : Nat
  mnemonic : String
  len : Nat
  mode : AddressingMode
  deriving DecidableEq

/-- Modelled from the spec: the crate's `opcodes` module (the `OpCode` list
and the `OPCODES_MAP` lookup table that `run` consults) is not among the
provided sources; only `cpu.rs`, which uses it, is.  The spec describes it
as a read-only map built from `(opcode_byte, mnemonic, addressing_mode,
instruction_length)` tuples covering the documented 6502 instruction set.
The entries the claims exercise — the LDA and STA families, TAX, INX and
BRK, with their standard documented lengths and modes, which the spec's
addressing-mode table and instruction-length discussion fix — are modelled
here; bytes outside the documented instruction set (such as 0x02) have no
entry. -/
def OPCODES_MAP : Nat → Option OpCode := fun code =>
  match code with
  | 0x00 => some ⟨0x00, "BRK", 1, .NoneAddressing⟩
  | 0xaa => some ⟨0xaa, "TAX", 1, .NoneAddressing⟩
  | 0xe8 => some ⟨0xe8, "INX", 1, .NoneAddressing⟩
  | 0xa9 => some ⟨0xa9, "LDA", 2, .Immediate⟩
  | 0xa5 => some ⟨0xa5, "LDA", 2, .ZeroPage⟩
  | 0xb5 => some ⟨0xb5, "LDA", 2, .ZeroPage_X⟩
  | 0xad => some ⟨0xad, "LDA", 3, .Absolute⟩
  | 0xbd => some ⟨0xbd, "LDA", 3, .Absolute_X⟩
  | 0xb9 => some ⟨0xb9, "LDA", 3, .Absolute_Y⟩
  | 0xa1 => some ⟨0xa1, "LDA", 2, .Indirect_X⟩
  | 0xb1 => some ⟨0xb1, "LDA", 2, .Indirect_Y⟩
  | 0x85 => some ⟨0x85, "STA", 2, .ZeroPage⟩
  | 0x95 => some ⟨0x95, "STA", 2, .ZeroPage_X⟩
  | 0x8d => some ⟨0x8d, "STA", 3, .Absolute⟩
  | 0x9d => some ⟨0x9d, "STA", 3, .Absolute_X⟩
  | 0x99 => some ⟨0x99, "STA", 3, .Absolute_Y⟩
  | 0x81 => some ⟨0x81, "STA", 2, .Indirect_X⟩
  | 0x91 => some ⟨0x91, "STA", 2, .Indirect_Y⟩
  | _ => none

/-- Outcome of one iteration of `run`'s loop, or of a bounded `run`:
`running` means the loop would continue from the given state, `halted`
means the BRK arm executed `return`, `fatal` is a panic. -/
inductive RunResult where
  | running (c : CPU)
  | halted (c : CPU)
  | fatal (e : Fatal)

/-- The dispatch `match code { ... }` in `run`'s loop body.  `.ok none`
encodes the `0x00 => return` arm; the final arm is `todo!()`. -/
def dispatch (c : CPU) (code : Nat) (opcode : OpCode) : Except Fatal (Option CPU) :=
  match code with
  | 0xa9 | 0xa5 | 0xb5 | 0xbd | 0xb9 | 0xa1 | 0xb1 | 0xad =>
      (lda c opcode.mode).map some
  | 0x85 | 0x95 | 0x8d | 0x9d | 0x99 | 0x81 | 0x91 =>
      (sta c opcode.mode).map some
  | 0xaa => .ok (some (tax c))
  | 0xe8 => .ok (some (inx c))
  | 0x00 => .ok none
  | _ => .error .notYetImplemented

/-- The part of `run`'s loop body after the opcode byte has been fetched
and the program counter incremented: table lookup (`expect` panics on a
missing entry), dispatch, and the conditional advance by `len - 1` when the
handler left the program counter unchanged.  `c` is the post-increment
state, so `c.program_counter` is `program_counter_state`. -/
def afterFetch (c : CPU) (code : Nat) : RunResult :=
  match OPCODES_MAP code with
  | none => .fatal (.unrecognizedOpcode code)
  | some opcode =>
    match dispatch c code opcode with
    | .error e => .fatal e
    | .ok none => .halted c
    | .ok (some c2) =>
      if c.program_counter = c2.program_counter then
        .running { c2 with program_counter := c2.program_counter + (opcode.len - 1) }
      else .running c2

/-- One iteration of `run`'s loop: fetch the opcode byte at the program
counter, advance the program counter by 1, then `afterFetch`. -/
def step (c : CPU) : RunResult :=
  match mem_read c c.program_counter with
  | .error e => .fatal e
  | .ok code => afterFetch { c with program_counter := c.program_counter + 1 } code

/-- `run`, with explicit fuel bounding the number of loop iterations.
`run fuel c = .running c2` means the loop has not yet halted after `fuel`
iterations. -/
def run (fuel : Nat) (c : CPU) : RunResult :=
  match fuel with
  | 0 => .running c
  | fuel + 1 =>
    match step c with
    | .running c2 => run fuel c2
    | r => r

/-- `load_and_run`: `load`, `reset`, `run`. -/
def load_and_run (c : CPU) (program : List Nat) (fuel : Nat) : RunResult :=
  match (do let c1 ← load c program; reset c1 : Except Fatal CPU) with
  | .error e => .fatal e
  | .ok c2 => run fuel c2

/-- Observation of a halted run: `(register_a, status)` of the final state,
`none` when the run did not halt. -/
def haltedObs : RunResult → Option (Nat × Nat)
  | .halted c => some (c.register_a, c.status)
  | _ => none

/-- A CPU state with nonzero registers, for concrete instantiations. -/
def cpuWith (pc : Nat) (m : Nat → Nat) : CPU :=
  { register_a := 1, register_x := 2, register_y := 3, status := 4,
    program_counter := pc, memory := m }

/-- Concrete state for the C4 witness: vector 0xFFFC/0xFFFD holds 0x1234. -/
def resetTestCPU : CPU :=
  cpuWith 0 (fun a => if a = 0xFFFC then 0x34 else if a = 0xFFFD then 0x12 else 0)

/-- Concrete state for the C6 witness. -/
def zpTestCPU : CPU :=
  cpuWith 0x10 (fun a =>
    if a = 0x10 then 0xF0
    else if a = 0xF5 then 0x34
    else if a = 0xF6 then 0x12
    else if a = 0xF0 then 0x77
    else if a = 0xF1 then 0x66 else 0)

/-- The byte `load` leaves at address `a`, `none` when `load` panics. -/
def loadedMem (c : CPU) (prog : List Nat) (a : Nat) : Option Nat :=
  match load c prog with
  | .ok c2 => some (c2.memory a)
  | .error _ => none

/-- An instruction for whole-program reasoning: an opcode byte and its
operand bytes. -/
structure Inst where
  code : Nat
  args : List Nat

/-- The encoding of one instruction: the opcode byte followed by the
operand bytes. -/
def instBytes (i : Inst) : List Nat := i.code :: i.args

/-- The encoding of an instruction sequence. -/
def progBytes : List Inst → List Nat
  | [] => []
  | i :: rest => instBytes i ++ progBytes rest

/-- Instructions whose execution provably cannot disturb a program image
placed at 0x8000: loads resolving through the program counter or the zero
page, stores confined to the zero page, and the register transfers.  (The
operand byte is a byte, as loaded memory always is.) -/
inductive SafeInst : Inst → Prop where
  | lda_imm (b : Nat) (h : b < 256) : SafeInst ⟨0xa9, [b]⟩
  | lda_zp (b : Nat) (h : b < 256) : SafeInst ⟨0xa5, [b]⟩
  | lda_zpx (b : Nat) (h : b < 256) : SafeInst ⟨0xb5, [b]⟩
  | sta_zp (b : Nat) (h : b < 256) : SafeInst ⟨0x85, [b]⟩
  | sta_zpx (b : Nat) (h : b < 256) : SafeInst ⟨0x95, [b]⟩
  | tax_inst : SafeInst ⟨0xaa, []⟩
  | inx_inst : SafeInst ⟨0xe8, []⟩

/-- `bytesAt m base l`: memory `m` holds the byte list `l` starting at
address `base`. -/
def bytesAt (m : Nat → Nat) (base : Nat) (l : List Nat) : Prop :=
  ∀ i ∈ List.range l.length, m (base + i) = l.getD i 0

instance bytesAtDecidable (m : Nat → Nat) (base : Nat) (l : List Nat) :
    Decidable (bytesAt m base l) :=
  inferInstanceAs (Decidable (∀ i ∈ List.range l.length, m (base + i) = l.getD i 0))

/-- Concrete state for the C2 witness: `LDA #$05; BRK` encoded at 0x8000
with the program counter there. -/
def c2TestCPU : CPU :=
  { register_a := 0, register_x := 0, register_y := 0, status := 0,
    program_counter := 0x8000,
    memory := fun a =>
      if a = 0x8000 then 0xa9 else if a = 0x8001 then 0x05 else 0 }

/-! ### Basic reduction lemmas -/

@[simp] theorem ok_bind {α β : Type} (a : α) (f : α → Except Fatal β) :
    (Except.ok a >>= f) = f a := rfl

@[simp] theorem error_bind {α β : Type} (e : Fatal) (f : α → Except Fatal β) :
    ((Except.error e : Except Fatal α) >>= f) = .error e := rfl

theorem mem_read_eq (c : CPU) (a : Nat) (h : a < MEM_SIZE) :
    mem_read c a = .ok (c.memory a) := by
  rw [mem_read, if_pos h]

theorem mem_write_eq (c : CPU) (a d : Nat) (h : a < MEM_SIZE) :
    mem_write c a d =
      .ok { c with memory := fun x => if x = a then d else c.memory x } := by
  rw [mem_write, if_pos h]

@[simp] theorem uznf_register_a (c : CPU) (r : Nat) :
    (update_zero_and_negative_flags c r).register_a = c.register_a := rfl

@[simp] theorem uznf_register_x (c : CPU) (r : Nat) :
    (update_zero_and_negative_flags c r).register_x = c.register_x := rfl

@[simp] theorem uznf_register_y (c : CPU) (r : Nat) :
    (update_zero_and_negative_flags c r).register_y = c.register_y := rfl

@[simp] theorem uznf_program_counter (c : CPU) (r : Nat) :
    (update_zero_and_negative_flags c r).program_counter = c.program_counter := rfl

@[simp] theorem uznf_memory (c : CPU) (r : Nat) :
    (update_zero_and_negative_flags c r).memory = c.memory := rfl

/-! ### Arithmetic helpers for the little-endian byte pair -/

theorem testBit_mul256_add (hi lo j : Nat) (h : lo < 256) :
    (hi * 256 + lo).testBit j =
      if j < 8 then lo.testBit j else hi.testBit (j - 8) := by
  rcases Nat.lt_or_ge j 8 with hj | hj
  · rw [if_pos hj]
    have hpow : (2 : Nat) ^ (7 - j) * 2 * 2 ^ j = 256 := by
      have e : 7 - j + 1 + j = 8 := by omega
      calc (2 : Nat) ^ (7 - j) * 2 * 2 ^ j
          = 2 ^ (7 - j + 1) * 2 ^ j := by rw [Nat.pow_succ]
        _ = 2 ^ (7 - j + 1 + j) := by rw [← Nat.pow_add]
        _ = 2 ^ 8 := by rw [e]
        _ = 256 := by norm_num
    have e1 : hi * 256 + lo = lo + hi * 2 ^ (7 - j) * 2 * 2 ^ j := by
      calc hi * 256 + lo = lo + hi * (2 ^ (7 - j) * 2 * 2 ^ j) := by
            rw [hpow]; omega
        _ = lo + hi * 2 ^ (7 - j) * 2 * 2 ^ j := by ring_nf
    rw [Nat.testBit_to_div_mod, Nat.testBit_to_div_mod, e1,
      Nat.add_mul_div_right _ _ (Nat.two_pow_pos j),
      Nat.add_mul_mod_self_right]
  · rw [if_neg (by omega)]
    have hjj : (2 : Nat) ^ j = 256 * 2 ^ (j - 8) := by
      rw [show (256 : Nat) = 2 ^ 8 by norm_num, ← Nat.pow_add]
      congr 1
      omega
    rw [Nat.testBit_to_div_mod, Nat.testBit_to_div_mod, hjj,
      ← Nat.div_div_eq_div_mul]
    have hd : (hi * 256 + lo) / 256 = hi := by omega
    rw [hd]

theorem lor_shift8 (hi lo : Nat) (h : lo < 256) :
    (hi <<< 8) ||| lo = hi * 256 + lo := by
  apply Nat.eq_of_testBit_eq
  intro j
  rw [Nat.testBit_lor, Nat.testBit_shiftLeft, testBit_mul256_add hi lo j h]
  rcases Nat.lt_or_ge j 8 with hj | hj
  · rw [if_pos hj]
    have hnot : ¬ (8 ≤ j) := by omega
    simp [hnot]
  · rw [if_neg (by omega)]
    have h1 : lo.testBit j = false := by
      apply Nat.testBit_lt_two_pow
      calc lo < 256 := h
        _ = 2 ^ 8 := by norm_num
        _ ≤ 2 ^ j := Nat.pow_le_pow_right (by norm_num) hj
    simp [hj, h1]

theorem and_255_eq_mod (x : Nat) : x &&& 255 = x % 256 := by
  have h := Nat.and_pow_two_sub_one_eq_mod x 8
  norm_num at h
  exact h

theorem and128_eq_zero_iff (r : Nat) : r &&& 128 = 0 ↔ r.testBit 7 = false := by
  rw [show (128 : Nat) = 2 ^ 7 by norm_num, Nat.and_two_pow]
  cases h : r.testBit 7 <;> simp [h]

/-! ### Status-flag lemmas -/

theorem uznf_zero_bit (c : CPU) (r : Nat) :
    (update_zero_and_negative_flags c r).status.testBit 1 = true ↔ r = 0 := by
  have t2 : Nat.testBit 2 1 = true := by decide
  have t127 : Nat.testBit 127 1 = true := by decide
  have t128 : Nat.testBit 128 1 = false := by decide
  have t253 : Nat.testBit 253 1 = false := by decide
  unfold update_zero_and_negative_flags
  by_cases hr : r = 0 <;> by_cases hn : r &&& 128 = 0 <;>
    simp [hr, hn, Nat.testBit_lor, Nat.testBit_land, t2, t127, t128, t253]

theorem uznf_neg_bit (c : CPU) (r : Nat) :
    (update_zero_and_negative_flags c r).status.testBit 7 = r.testBit 7 := by
  have t2 : Nat.testBit 2 7 = false := by decide
  have t127 : Nat.testBit 127 7 = false := by decide
  have t128 : Nat.testBit 128 7 = true := by decide
  have t253 : Nat.testBit 253 7 = true := by decide
  unfold update_zero_and_negative_flags
  by_cases hn : r &&& 128 = 0
  · have h7 : r.testBit 7 = false := (and128_eq_zero_iff r).mp hn
    by_cases hr : r = 0 <;>
      simp [hr, hn, h7, Nat.testBit_lor, Nat.testBit_land, t2, t127, t128, t253]
  · have h7 : r.testBit 7 = true := by
      cases h : r.testBit 7
      · exact absurd ((and128_eq_zero_iff r).mpr h) hn
      · rfl
    by_cases hr : r = 0 <;>
      simp [hr, hn, h7, Nat.testBit_lor, Nat.testBit_land, t2, t127, t128, t253]

theorem uznf_other_bits (c : CPU) (r i : Nat) (hs : c.status < 256)
    (h1 : i ≠ 1) (h7 : i ≠ 7) :
    (update_zero_and_negative_flags c r).status.testBit i = c.status.testBit i := by
  have t2 : Nat.testBit 2 i = false := by
    rw [show (2 : Nat) = 2 ^ 1 by norm_num]
    exact Nat.testBit_two_pow_of_ne (fun h => h1 h.symm)
  have t128 : Nat.testBit 128 i = false := by
    rw [show (128 : Nat) = 2 ^ 7 by norm_num]
    exact Nat.testBit_two_pow_of_ne (fun h => h7 h.symm)
  unfold update_zero_and_negative_flags
  rcases Nat.lt_or_ge i 8 with hi | hi
  · have t127 : Nat.testBit 127 i = true := by
      rw [show (127 : Nat) = 2 ^ 7 - 1 by norm_num, Nat.testBit_two_pow_sub_one]
      simp only [decide_eq_true_eq]
      omega
    have t253 : Nat.testBit 253 i = true := by
      rw [show (253 : Nat) = 2 ^ 8 - (2 + 1) by norm_num,
        Nat.testBit_two_pow_sub_succ (by norm_num)]
      simp only [t2, Bool.not_false, Bool.and_true, decide_eq_true_eq]
      omega
    by_cases hr : r = 0 <;> by_cases hn : r &&& 128 = 0 <;>
      simp [hr, hn, Nat.testBit_lor, Nat.testBit_land, t2, t127, t128, t253]
  · have hbig : ∀ x : Nat, x < 256 → x.testBit i = false := fun x hx => by
      apply Nat.testBit_lt_two_pow
      calc x < 256 := hx
        _ = 2 ^ 8 := by norm_num
        _ ≤ 2 ^ i := Nat.pow_le_pow_right (by norm_num) hi
    have hst : c.status.testBit i = false := hbig _ hs
    have t127 : Nat.testBit 127 i = false := hbig 127 (by norm_num)
    have t253 : Nat.testBit 253 i = false := hbig 253 (by norm_num)
    by_cases hr : r = 0 <;> by_cases hn : r &&& 128 = 0 <;>
      simp [hr, hn, Nat.testBit_lor, Nat.testBit_land, hst, t2, t127, t128, t253]

/-- Inversion for a successful `lda`: the result is
`update_zero_and_negative_flags` applied to the state with the loaded value
in `register_a`. -/
theorem lda_ok_shape (c : CPU) (mode : AddressingMode) (c2 : CPU)
    (h : lda c mode = .ok c2) :
    ∃ v, c2 = update_zero_and_negative_flags { c with register_a := v } v := by
  unfold lda at h
  cases hga : get_operand_address c mode with
  | error e => rw [hga] at h; simp at h
  | ok addr =>
    rw [hga] at h
    simp only [ok_bind] at h
    cases hv : mem_read c addr with
    | error e => rw [hv] at h; simp at h
    | ok v =>
      rw [hv] at h
      simp only [ok_bind] at h
      exact ⟨v, (Except.ok.inj h).symm⟩

/-! ### Claim theorems -/

/-- Claim C1 (code bug): the source declares the memory array as
`[u8; 0xFFFF]`, i.e. 65535 bytes, one short of the 65536-byte 16-bit
address space its own header comment describes, so reading or writing the
address 0xFFFF is an out-of-bounds array panic, not a memory access.  The
claim that the array is exactly 65536 bytes and that no bounds error is
possible for any `u16` address (including 0xFFFF) is therefore false of
the code, and true of its intent. -/
theorem memory_read_at_0xFFFF_panics :
    MEM_SIZE = 65535
    ∧ mem_read CPU.new 0xFFFF = .error (.indexOutOfBounds 0xFFFF)
    ∧ mem_write CPU.new 0xFFFF 0 = .error (.indexOutOfBounds 0xFFFF)
    ∧ (∀ a, a < 65535 → mem_read CPU.new a = .ok (CPU.new.memory a)) :=
  ⟨rfl, rfl, rfl, fun a h => mem_read_eq CPU.new a h⟩

/-- Claim C3: `mem_write_u16` writes the low byte of `v` at `addr` and the
high byte at `addr + 1`; `mem_read_u16` then returns `v`, and in general
assembles `high * 256 + low` with the low byte read at the address and the
high byte at the successor address. -/
theorem write16_read16_roundtrip (c : CPU) (addr v : Nat) (hv : v < 65536)
    (ha : addr + 1 < MEM_SIZE) :
    ∃ c2, mem_write_u16 c addr v = .ok c2
      ∧ mem_read_u16 c2 addr = .ok v
      ∧ c2.memory addr = v % 256
      ∧ c2.memory (addr + 1) = v / 256
      ∧ (∀ d : CPU, ∀ pos : Nat, pos + 1 < MEM_SIZE → d.memory pos < 256 →
          mem_read_u16 d pos = .ok (d.memory (pos + 1) * 256 + d.memory pos)) := by
  have hm : MEM_SIZE = 65535 := rfl
  have h0 : addr < MEM_SIZE := by rw [hm] at ha ⊢; omega
  have hgen : ∀ d : CPU, ∀ pos : Nat, pos + 1 < MEM_SIZE → d.memory pos < 256 →
      mem_read_u16 d pos = .ok (d.memory (pos + 1) * 256 + d.memory pos) := by
    intro d pos hp hbyte
    have hp0 : pos < MEM_SIZE := by rw [hm] at hp ⊢; omega
    simp only [mem_read_u16]
    rw [mem_read_eq d pos hp0, ok_bind, mem_read_eq d (pos + 1) hp, ok_bind,
      lor_shift8 _ _ hbyte]
    rfl
  refine ⟨{ c with memory := fun a =>
      if a = addr + 1 then (v >>> 8) % 256
      else if a = addr then v &&& 255 else c.memory a }, ?_, ?_, ?_, ?_, hgen⟩
  · simp only [mem_write_u16]
    rw [mem_write_eq c addr _ h0, ok_bind, mem_write_eq _ _ _ ha]
  · have e3 : (if addr = addr + 1 then (v >>> 8) % 256
        else if addr = addr then v &&& 255 else c.memory addr) = v % 256 := by
      rw [if_neg (by omega), if_pos rfl, and_255_eq_mod]
    have e4 : (if addr + 1 = addr + 1 then (v >>> 8) % 256
        else if addr + 1 = addr then v &&& 255 else c.memory (addr + 1)) = v / 256 := by
      rw [if_pos rfl, Nat.shiftRight_eq_div_pow]
      norm_num
      omega
    rw [hgen _ addr ha (by dsimp only; rw [e3]; omega)]
    dsimp only
    rw [e3, e4]
    congr 1
    omega
  · show (if addr = addr + 1 then (v >>> 8) % 256
        else if addr = addr then v &&& 255 else c.memory addr) = v % 256
    rw [if_neg (by omega), if_pos rfl, and_255_eq_mod]
  · show (if addr + 1 = addr + 1 then (v >>> 8) % 256
        else if addr + 1 = addr then v &&& 255 else c.memory (addr + 1)) = v / 256
    rw [if_pos rfl, Nat.shiftRight_eq_div_pow]
    norm_num
    omega

/-- Witness for the C3 theorem at `addr = 0x10`, `v = 0x1234`. -/
theorem write16_read16_roundtrip_witness :
    0x1234 < 65536 ∧ 0x10 + 1 < MEM_SIZE
    ∧ (∃ c2, mem_write_u16 CPU.new 0x10 0x1234 = .ok c2
        ∧ mem_read_u16 c2 0x10 = .ok 0x1234
        ∧ c2.memory 0x10 = 0x1234 % 256
        ∧ c2.memory (0x10 + 1) = 0x1234 / 256
        ∧ (∀ d : CPU, ∀ pos : Nat, pos + 1 < MEM_SIZE → d.memory pos < 256 →
            mem_read_u16 d pos = .ok (d.memory (pos + 1) * 256 + d.memory pos))) :=
  ⟨by decide, by decide, write16_read16_roundtrip CPU.new 0x10 0x1234 (by decide) (by decide)⟩

/-- Claim C4: from any prior state, `reset` zeroes the registers and the
status byte, loads the program counter from the little-endian pair at
0xFFFC/0xFFFD, and leaves the whole memory unchanged. -/
theorem reset_clears_registers_and_loads_vector (c : CPU)
    (hlo : c.memory 0xFFFC < 256) :
    ∃ c2, reset c = .ok c2
      ∧ c2.register_a = 0 ∧ c2.register_x = 0 ∧ c2.register_y = 0
      ∧ c2.status = 0
      ∧ c2.program_counter = c.memory 0xFFFD * 256 + c.memory 0xFFFC
      ∧ (∀ a, c2.memory a = c.memory a) := by
  refine ⟨{ c with
              register_a := 0, register_x := 0, register_y := 0, status := 0,
              program_counter := (c.memory 0xFFFD <<< 8) ||| c.memory 0xFFFC },
    rfl, rfl, rfl, rfl, rfl, ?_, fun a => rfl⟩
  exact lor_shift8 _ _ hlo

/-- Witness for the C4 theorem on `resetTestCPU`. -/
theorem reset_clears_registers_and_loads_vector_witness :
    resetTestCPU.memory 0xFFFC < 256
    ∧ (∃ c2, reset resetTestCPU = .ok c2
        ∧ c2.register_a = 0 ∧ c2.register_x = 0 ∧ c2.register_y = 0
        ∧ c2.status = 0
        ∧ c2.program_counter =
            resetTestCPU.memory 0xFFFD * 256 + resetTestCPU.memory 0xFFFC
        ∧ (∀ a, c2.memory a = resetTestCPU.memory a)) :=
  ⟨by decide, reset_clears_registers_and_loads_vector resetTestCPU (by decide)⟩

/-- Claim C5: `update_zero_and_negative_flags result` sets status bit 1 iff
`result = 0`, sets status bit 7 iff bit 7 of `result` is set, leaves every
other status bit unchanged; and the register-result handlers (`lda`,
`tax`, `inx`) run it on the produced register value, so those two flags
reflect that value afterwards. -/
theorem update_flags_zero_negative_spec (c : CPU) (r : Nat) (hs : c.status < 256) :
    ((update_zero_and_negative_flags c r).status.testBit 1 = true ↔ r = 0)
    ∧ (update_zero_and_negative_flags c r).status.testBit 7 = r.testBit 7
    ∧ (∀ i, i ≠ 1 → i ≠ 7 →
        (update_zero_and_negative_flags c r).status.testBit i = c.status.testBit i)
    ∧ (∀ mode c2, lda c mode = .ok c2 →
        (c2.status.testBit 1 = true ↔ c2.register_a = 0)
        ∧ c2.status.testBit 7 = c2.register_a.testBit 7)
    ∧ ((tax c).status.testBit 1 = true ↔ (tax c).register_x = 0)
    ∧ (tax c).status.testBit 7 = (tax c).register_x.testBit 7
    ∧ ((inx c).status.testBit 1 = true ↔ (inx c).register_x = 0)
    ∧ (inx c).status.testBit 7 = (inx c).register_x.testBit 7 := by
  refine ⟨uznf_zero_bit c r, uznf_neg_bit c r,
    fun i h1 h7 => uznf_other_bits c r i hs h1 h7, ?_, ?_, ?_, ?_, ?_⟩
  · intro mode c2 h
    obtain ⟨v, rfl⟩ := lda_ok_shape c mode c2 h
    constructor
    · simpa using uznf_zero_bit { c with register_a := v } v
    · simpa using uznf_neg_bit { c with register_a := v } v
  · simp only [tax]
    simpa using uznf_zero_bit { c with register_x := c.register_a } c.register_a
  · simp only [tax]
    simpa using uznf_neg_bit { c with register_x := c.register_a } c.register_a
  · simp only [inx]
    simpa using
      uznf_zero_bit { c with register_x := (c.register_x + 1) % 256 }
        ((c.register_x + 1) % 256)
  · simp only [inx]
    simpa using
      uznf_neg_bit { c with register_x := (c.register_x + 1) % 256 }
        ((c.register_x + 1) % 256)

/-- Witness for the C5 theorem at `cpuWith 0 (fun a => 0)` and `r = 0x85`. -/
theorem update_flags_zero_negative_spec_witness :
    (cpuWith 0 (fun _ => 0)).status < 256
    ∧ (((update_zero_and_negative_flags (cpuWith 0 (fun _ => 0)) 0x85).status.testBit 1 = true
          ↔ (0x85 : Nat) = 0)
      ∧ (update_zero_and_negative_flags (cpuWith 0 (fun _ => 0)) 0x85).status.testBit 7 =
          (0x85 : Nat).testBit 7
      ∧ (∀ i, i ≠ 1 → i ≠ 7 →
          (update_zero_and_negative_flags (cpuWith 0 (fun _ => 0)) 0x85).status.testBit i =
            (cpuWith 0 (fun _ => 0)).status.testBit i)
      ∧ (∀ mode c2, lda (cpuWith 0 (fun _ => 0)) mode = .ok c2 →
          (c2.status.testBit 1 = true ↔ c2.register_a = 0)
          ∧ c2.status.testBit 7 = c2.register_a.testBit 7)
      ∧ ((tax (cpuWith 0 (fun _ => 0))).status.testBit 1 = true
          ↔ (tax (cpuWith 0 (fun _ => 0))).register_x = 0)
      ∧ (tax (cpuWith 0 (fun _ => 0))).status.testBit 7 =
          (tax (cpuWith 0 (fun _ => 0))).register_x.testBit 7
      ∧ ((inx (cpuWith 0 (fun _ => 0))).status.testBit 1 = true
          ↔ (inx (cpuWith 0 (fun _ => 0))).register_x = 0)
      ∧ (inx (cpuWith 0 (fun _ => 0))).status.testBit 7 =
          (inx (cpuWith 0 (fun _ => 0))).register_x.testBit 7) :=
  ⟨by decide, update_flags_zero_negative_spec (cpuWith 0 (fun _ => 0)) 0x85 (by decide)⟩

/-- Claim C6: the zero-page indexed modes compute
`(memory[pc] + register) % 256` and stay below 256; `Indirect_X` fetches
through the wrapped zero-page pointer with the high byte at
`(ptr + 1) % 256`; `Indirect_Y` fetches its high byte at
`(base + 1) % 256`.  All one-byte additions wrap modulo 256. -/
theorem zero_page_indexing_wraps_mod_256 (c : CPU)
    (hpc : c.program_counter < MEM_SIZE)
    (hb : c.memory c.program_counter < 256) :
    (get_operand_address c .ZeroPage_X =
        .ok ((c.memory c.program_counter + c.register_x) % 256))
    ∧ (c.memory c.program_counter + c.register_x) % 256 < 256
    ∧ (get_operand_address c .ZeroPage_Y =
        .ok ((c.memory c.program_counter + c.register_y) % 256))
    ∧ (c.memory c.program_counter + c.register_y) % 256 < 256
    ∧ (get_operand_address c .Indirect_X =
        .ok ((c.memory (((c.memory c.program_counter + c.register_x) % 256 + 1) % 256) <<< 8) |||
             c.memory ((c.memory c.program_counter + c.register_x) % 256)))
    ∧ (get_operand_address c .Indirect_Y =
        .ok ((((c.memory ((c.memory c.program_counter + 1) % 256) <<< 8) |||
              c.memory (c.memory c.program_counter)) + c.register_y) % 65536)) := by
  have hm : MEM_SIZE = 65535 := rfl
  have hz : ∀ n : Nat, n % 256 < MEM_SIZE := fun n => by rw [hm]; omega
  have hbase : c.memory c.program_counter < MEM_SIZE := by rw [hm]; omega
  refine ⟨?_, by omega, ?_, by omega, ?_, ?_⟩
  · simp only [get_operand_address]
    rw [mem_read_eq c _ hpc, ok_bind]
    rfl
  · simp only [get_operand_address]
    rw [mem_read_eq c _ hpc, ok_bind]
    rfl
  · simp only [get_operand_address]
    rw [mem_read_eq c _ hpc, ok_bind, mem_read_eq c _ (hz _), ok_bind,
      mem_read_eq c _ (hz _), ok_bind]
    rfl
  · simp only [get_operand_address]
    rw [mem_read_eq c _ hpc, ok_bind, mem_read_eq c _ hbase, ok_bind,
      mem_read_eq c _ (hz _), ok_bind]
    rfl

/-- Witness for the C6 theorem on `zpTestCPU`. -/
theorem zero_page_indexing_wraps_mod_256_witness :
    zpTestCPU.program_counter < MEM_SIZE
    ∧ zpTestCPU.memory zpTestCPU.program_counter < 256
    ∧ ((get_operand_address zpTestCPU .ZeroPage_X =
          .ok ((zpTestCPU.memory zpTestCPU.program_counter + zpTestCPU.register_x) % 256))
      ∧ (zpTestCPU.memory zpTestCPU.program_counter + zpTestCPU.register_x) % 256 < 256
      ∧ (get_operand_address zpTestCPU .ZeroPage_Y =
          .ok ((zpTestCPU.memory zpTestCPU.program_counter + zpTestCPU.register_y) % 256))
      ∧ (zpTestCPU.memory zpTestCPU.program_counter + zpTestCPU.register_y) % 256 < 256
      ∧ (get_operand_address zpTestCPU .Indirect_X =
          .ok ((zpTestCPU.memory
                  (((zpTestCPU.memory zpTestCPU.program_counter + zpTestCPU.register_x) % 256 + 1) % 256) <<< 8) |||
               zpTestCPU.memory
                  ((zpTestCPU.memory zpTestCPU.program_counter + zpTestCPU.register_x) % 256)))
      ∧ (get_operand_address zpTestCPU .Indirect_Y =
          .ok ((((zpTestCPU.memory ((zpTestCPU.memory zpTestCPU.program_counter + 1) % 256) <<< 8) |||
                zpTestCPU.memory (zpTestCPU.memory zpTestCPU.program_counter)) +
                zpTestCPU.register_y) % 65536))) :=
  ⟨by decide, by decide, zero_page_indexing_wraps_mod_256 zpTestCPU (by decide) (by decide)⟩

/-- Claim C10: a successful `sta` writes `register_a` at the resolved
operand address and changes nothing else: no flag update, registers,
program counter and every other memory byte unchanged. -/
theorem sta_writes_a_no_flag_update (c : CPU) (mode : AddressingMode) (addr : Nat)
    (hga : get_operand_address c mode = .ok addr) (hb : addr < MEM_SIZE) :
    ∃ c2, sta c mode = .ok c2
      ∧ c2.memory addr = c.register_a
      ∧ (∀ a, a ≠ addr → c2.memory a = c.memory a)
      ∧ c2.status = c.status ∧ c2.register_a = c.register_a
      ∧ c2.register_x = c.register_x ∧ c2.register_y = c.register_y
      ∧ c2.program_counter = c.program_counter := by
  refine ⟨{ c with memory := fun x => if x = addr then c.register_a else c.memory x },
    ?_, ?_, ?_, rfl, rfl, rfl, rfl, rfl⟩
  · simp only [sta]
    rw [hga, ok_bind, mem_write_eq c addr _ hb]
  · show (if addr = addr then c.register_a else c.memory addr) = c.register_a
    rw [if_pos rfl]
  · intro a ha
    show (if a = addr then c.register_a else c.memory a) = c.memory a
    rw [if_neg ha]

/-- Claim C8: the three LDA-immediate test programs.  `load_and_run` on
`[0xA9, 0x05, 0x00]` halts with `register_a = 5` and both flags clear
(status byte 0); on `[0xA9, 0x00, 0x00]` it halts with the zero flag
(status bit 1) set; on `[0xA9, 0x80, 0x00]` it halts with the negative
flag (status bit 7) set.  Two loop iterations (two instructions) suffice
in each case. -/
theorem lda_immediate_flag_tests :
    haltedObs (load_and_run CPU.new [0xa9, 0x05, 0x00] 2) = some (0x05, 0x00)
    ∧ ((haltedObs (load_and_run CPU.new [0xa9, 0x05, 0x00] 2)).map
        (fun p => (p.2.testBit 1, p.2.testBit 7)) = some (false, false))
    ∧ ((haltedObs (load_and_run CPU.new [0xa9, 0x00, 0x00] 2)).map
        (fun p => p.2.testBit 1) = some true)
    ∧ ((haltedObs (load_and_run CPU.new [0xa9, 0x80, 0x00] 2)).map
        (fun p => p.2.testBit 7) = some true) :=
  ⟨rfl, rfl, rfl, rfl⟩

/-- Claim C7, amended: an opcode byte without an `OPCODES_MAP` entry makes
the loop iteration abort with `unrecognizedOpcode` carrying the byte, and
resolving `NoneAddressing` aborts with `unsupportedAddressingMode`
carrying the mode — hard stops, never silent no-ops.  (The source panic
messages carry, respectively, only the byte — not the program counter —
and only the mode — not the mnemonic; and these are not the only fatal
conditions, see the counterexample.) -/
theorem fatal_conditions_abort :
    (∀ (c : CPU) (code : Nat),
        mem_read c c.program_counter = .ok code → OPCODES_MAP code = none →
        step c = .fatal (.unrecognizedOpcode code))
    ∧ (∀ c : CPU, get_operand_address c .NoneAddressing =
        .error (.unsupportedAddressingMode .NoneAddressing)) := by
  constructor
  · intro c code h hnone
    unfold step
    rw [h]
    show afterFetch { c with program_counter := c.program_counter + 1 } code = _
    unfold afterFetch
    rw [hnone]
  · intro c
    rfl

/-- Witness for the C7 amended theorem: byte 0x02 (not a documented 6502
opcode) has no table entry. -/
theorem fatal_conditions_abort_witness :
    mem_read (cpuWith 5 (fun _ => 0x02)) (cpuWith 5 (fun _ => 0x02)).program_counter =
        .ok 0x02
    ∧ OPCODES_MAP 0x02 = none
    ∧ step (cpuWith 5 (fun _ => 0x02)) = .fatal (.unrecognizedOpcode 0x02)
    ∧ get_operand_address (cpuWith 5 (fun _ => 0x02)) .NoneAddressing =
        .error (.unsupportedAddressingMode .NoneAddressing) :=
  ⟨rfl, rfl, fatal_conditions_abort.1 (cpuWith 5 (fun _ => 0x02)) 0x02 rfl rfl,
    fatal_conditions_abort.2 (cpuWith 5 (fun _ => 0x02))⟩

/-- Claim C7 counterexample.  First, the unrecognized-opcode diagnostic
does not carry the program counter at fetch time: two states that fetch
the same unmapped byte 0x02 at different program counters (10 and 20)
abort with identical payloads (the `expect` message interpolates only the
byte).  Second, the two claimed conditions are not the only fatal
conditions aborting the run loop: a fetch at address 0xFFFF aborts with an
out-of-bounds panic, which is neither an `unrecognizedOpcode` nor an
`unsupportedAddressingMode` diagnostic. -/
theorem fatal_conditions_counterexample :
    step (cpuWith 10 (fun _ => 0x02)) = .fatal (.unrecognizedOpcode 0x02)
    ∧ step (cpuWith 20 (fun _ => 0x02)) = .fatal (.unrecognizedOpcode 0x02)
    ∧ (cpuWith 10 (fun _ => 0x02)).program_counter ≠
        (cpuWith 20 (fun _ => 0x02)).program_counter
    ∧ step (cpuWith 0xFFFF (fun _ => 0x02)) = .fatal (.indexOutOfBounds 0xFFFF)
    ∧ Fatal.indexOutOfBounds 0xFFFF ≠ Fatal.unrecognizedOpcode 0x02
    ∧ Fatal.indexOutOfBounds 0xFFFF ≠
        Fatal.unsupportedAddressingMode AddressingMode.NoneAddressing :=
  ⟨rfl, rfl, by decide, rfl, by decide, by decide⟩

/-- `getD` on a `replicate` list below its length. -/
theorem getD_replicate_of_lt (n i a : Nat) (h : i < n) :
    (List.replicate n a).getD i 0 = a := by
  induction n generalizing i with
  | zero => omega
  | succ n ih =>
    cases i with
    | zero => rfl
    | succ j => simpa [List.replicate_succ] using ih j (by omega)

/-- Claim C9, amended: for a program that fits below the end of the memory
array, `load` returns successfully, copies every program byte to
`0x8000 + i` except where the subsequent reset-vector write overwrote it
(only possible at 0xFFFC/0xFFFD, i.e. for programs longer than 0x7FFC
bytes), sets `memory[0xFFFC] = 0x00` and `memory[0xFFFD] = 0x80`, and
leaves every other memory byte and all registers, the status byte, and
the program counter unchanged. -/
theorem load_spec (c : CPU) (prog : List Nat)
    (h : 0x8000 + prog.length ≤ MEM_SIZE) :
    ∃ c2, load c prog = .ok c2
      ∧ (∀ i, i < prog.length → 0x8000 + i ≠ 0xFFFC → 0x8000 + i ≠ 0xFFFD →
          c2.memory (0x8000 + i) = prog.getD i 0)
      ∧ c2.memory 0xFFFC = 0x00 ∧ c2.memory 0xFFFD = 0x80
      ∧ (∀ a, a < 0x8000 → c2.memory a = c.memory a)
      ∧ (∀ a, 0x8000 + prog.length ≤ a → a ≠ 0xFFFC → a ≠ 0xFFFD →
          c2.memory a = c.memory a)
      ∧ c2.register_a = c.register_a ∧ c2.register_x = c.register_x
      ∧ c2.register_y = c.register_y ∧ c2.status = c.status
      ∧ c2.program_counter = c.program_counter := by
  have hd : DEFAULT_PROGRAM_COUNTER = 0x8000 := rfl
  have h1 : (0xFFFC : Nat) < MEM_SIZE := by decide
  have h2 : (0xFFFC : Nat) + 1 < MEM_SIZE := by decide
  refine ⟨{ c with memory := fun x =>
      if x = 0xFFFC + 1 then (DEFAULT_PROGRAM_COUNTER >>> 8) % 256
      else if x = 0xFFFC then DEFAULT_PROGRAM_COUNTER &&& 255
      else if DEFAULT_PROGRAM_COUNTER ≤ x then
        if x < DEFAULT_PROGRAM_COUNTER + prog.length then
          prog.getD (x - DEFAULT_PROGRAM_COUNTER) 0
        else c.memory x
      else c.memory x }, ?_, ?_, ?_, ?_, ?_, ?_, rfl, rfl, rfl, rfl, rfl⟩
  · unfold load
    rw [if_pos (by rw [hd]; exact h)]
    simp only [mem_write_u16]
    rw [mem_write_eq _ _ _ h1, ok_bind, mem_write_eq _ _ _ h2]
  · intro i hi hc hdd
    dsimp only
    rw [if_neg (by omega), if_neg (by omega), if_pos (by rw [hd]; omega),
      if_pos (by rw [hd]; omega), hd, Nat.add_sub_cancel_left]
  · dsimp only
    rw [if_neg (by omega), if_pos rfl]
    rfl
  · dsimp only
    rw [if_pos (by omega)]
    rfl
  · intro a ha
    dsimp only
    rw [if_neg (by omega), if_neg (by omega), if_neg (by rw [hd]; omega)]
  · intro a ha hc hdd
    dsimp only
    rw [if_neg (by omega), if_neg (by omega)]
    by_cases hge : DEFAULT_PROGRAM_COUNTER ≤ a
    · rw [if_pos hge, if_neg (by rw [hd] at hge ⊢; omega)]
    · rw [if_neg hge]

/-- Witness for the C9 amended theorem on a three-byte program. -/
theorem load_spec_witness :
    0x8000 + ([1, 2, 3] : List Nat).length ≤ MEM_SIZE
    ∧ (∃ c2, load CPU.new [1, 2, 3] = .ok c2
        ∧ (∀ i, i < ([1, 2, 3] : List Nat).length →
            0x8000 + i ≠ 0xFFFC → 0x8000 + i ≠ 0xFFFD →
            c2.memory (0x8000 + i) = ([1, 2, 3] : List Nat).getD i 0)
        ∧ c2.memory 0xFFFC = 0x00 ∧ c2.memory 0xFFFD = 0x80
        ∧ (∀ a, a < 0x8000 → c2.memory a = CPU.new.memory a)
        ∧ (∀ a, 0x8000 + ([1, 2, 3] : List Nat).length ≤ a →
            a ≠ 0xFFFC → a ≠ 0xFFFD → c2.memory a = CPU.new.memory a)
        ∧ c2.register_a = CPU.new.register_a ∧ c2.register_x = CPU.new.register_x
        ∧ c2.register_y = CPU.new.register_y ∧ c2.status = CPU.new.status
        ∧ c2.program_counter = CPU.new.program_counter) :=
  ⟨by decide, load_spec CPU.new [1, 2, 3] (by decide)⟩

/-- Pointwise description of the memory after a successful `load`. -/
theorem loadedMem_eq (c : CPU) (prog : List Nat)
    (h : 0x8000 + prog.length ≤ MEM_SIZE) (a : Nat) :
    loadedMem c prog a =
      some (if a = 0xFFFC + 1 then 0x80
            else if a = 0xFFFC then 0x00
            else if 0x8000 ≤ a then
              if a < 0x8000 + prog.length then prog.getD (a - 0x8000) 0
              else c.memory a
            else c.memory a) := by
  unfold loadedMem load
  rw [if_pos (show DEFAULT_PROGRAM_COUNTER + prog.length ≤ MEM_SIZE from h)]
  simp only [mem_write_u16]
  rw [mem_write_eq _ _ _ (by decide), ok_bind, mem_write_eq _ _ _ (by decide)]
  rfl

/-- Claim C9 counterexample: a program of length 0x7FFD fits the remaining
address space (0x8000 + 0x7FFD ≤ 65535, the array length), its byte at
index 0x7FFC is 0xAB, and 0x8000 + 0x7FFC lies inside
`[0x8000, 0x8000 + len)` — yet after `load` the byte at that address
(0xFFFC) is 0x00, because the reset-vector write runs after the copy.  So
`load` does not copy the program bytes exactly into the claimed range. -/
theorem load_overlap_counterexample :
    0x8000 + (List.replicate 0x7FFD (0xAB : Nat)).length ≤ MEM_SIZE
    ∧ (List.replicate 0x7FFD (0xAB : Nat)).getD 0x7FFC 0 = 0xAB
    ∧ 0x8000 + 0x7FFC < 0x8000 + (List.replicate 0x7FFD (0xAB : Nat)).length
    ∧ loadedMem CPU.new (List.replicate 0x7FFD (0xAB : Nat)) (0x8000 + 0x7FFC) =
        some 0x00 := by
  refine ⟨?_, getD_replicate_of_lt _ _ _ (by norm_num), ?_, ?_⟩
  · rw [List.length_replicate]
    decide
  · rw [List.length_replicate]
    norm_num
  · rw [loadedMem_eq CPU.new _ (by rw [List.length_replicate]; decide) (0x8000 + 0x7FFC)]
    rw [if_neg (by omega : ¬ (0x8000 + 0x7FFC : Nat) = 0xFFFC + 1),
      if_pos (by omega : (0x8000 + 0x7FFC : Nat) = 0xFFFC)]

/-- Witness for the C10 theorem: `sta` in ZeroPage mode on a fresh-like
state resolves address 0 and stores `register_a` there. -/
theorem sta_writes_a_no_flag_update_witness :
    get_operand_address (cpuWith 0 (fun _ => 0)) .ZeroPage = .ok 0
    ∧ (0 : Nat) < MEM_SIZE
    ∧ (∃ c2, sta (cpuWith 0 (fun _ => 0)) .ZeroPage = .ok c2
        ∧ c2.memory 0 = (cpuWith 0 (fun _ => 0)).register_a
        ∧ (∀ a, a ≠ 0 → c2.memory a = (cpuWith 0 (fun _ => 0)).memory a)
        ∧ c2.status = (cpuWith 0 (fun _ => 0)).status
        ∧ c2.register_a = (cpuWith 0 (fun _ => 0)).register_a
        ∧ c2.register_x = (cpuWith 0 (fun _ => 0)).register_x
        ∧ c2.register_y = (cpuWith 0 (fun _ => 0)).register_y
        ∧ c2.program_counter = (cpuWith 0 (fun _ => 0)).program_counter) :=
  ⟨rfl, by decide,
    sta_writes_a_no_flag_update (cpuWith 0 (fun _ => 0)) .ZeroPage 0 rfl (by decide)⟩

/-! ### Whole-program lemmas for the run loop -/

theorem bytesAt_nil (m : Nat → Nat) (base : Nat) : bytesAt m base [] := by
  intro i hi
  simp [List.mem_range] at hi

theorem bytesAt_cons {m : Nat → Nat} {base x : Nat} {l : List Nat} :
    bytesAt m base (x :: l) ↔ m base = x ∧ bytesAt m (base + 1) l := by
  constructor
  · intro h
    refine ⟨?_, fun i hi => ?_⟩
    · simpa using h 0 (by simp [List.mem_range])
    · rw [List.mem_range] at hi
      have h2 := h (i + 1) (by rw [List.mem_range]; simp; omega)
      rw [show base + (i + 1) = base + 1 + i by omega] at h2
      simpa using h2
  · rintro ⟨h0, h⟩ i hi
    rw [List.mem_range] at hi
    match i with
    | 0 => simpa using h0
    | j + 1 =>
      have h2 := h j (by rw [List.mem_range]; simp at hi; omega)
      rw [show base + 1 + j = base + (j + 1) by omega] at h2
      simpa using h2

theorem bytesAt_append {m : Nat → Nat} {base : Nat} {l1 l2 : List Nat} :
    bytesAt m base (l1 ++ l2) ↔
      bytesAt m base l1 ∧ bytesAt m (base + l1.length) l2 := by
  induction l1 generalizing base with
  | nil =>
    simp only [List.nil_append, List.length_nil, Nat.add_zero]
    exact ⟨fun h => ⟨bytesAt_nil m base, h⟩, fun h => h.2⟩
  | cons x l ih =>
    simp only [List.cons_append, bytesAt_cons, List.length_cons, ih]
    constructor
    · rintro ⟨h0, h1, h2⟩
      refine ⟨⟨h0, h1⟩, ?_⟩
      rw [show base + (l.length + 1) = base + 1 + l.length by omega]
      exact h2
    · rintro ⟨⟨h0, h1⟩, h2⟩
      refine ⟨h0, h1, ?_⟩
      rw [show base + 1 + l.length = base + (l.length + 1) by omega]
      exact h2

theorem bytesAt_of_agree {m1 m2 : Nat → Nat} {base : Nat} {l : List Nat}
    (hagree : ∀ a, 0x100 ≤ a → m2 a = m1 a) (hb : 0x100 ≤ base)
    (h : bytesAt m1 base l) : bytesAt m2 base l := by
  intro i hi
  rw [hagree (base + i) (by omega)]
  exact h i hi

theorem run_succ (fuel : Nat) (c : CPU) :
    run (fuel + 1) c =
      (match step c with
       | .running c2 => run fuel c2
       | r => r) := rfl

theorem run_succ_running (fuel : Nat) (c c2 : CPU) (h : step c = .running c2) :
    run (fuel + 1) c = run fuel c2 := by
  rw [run_succ, h]

theorem run_succ_halted (fuel : Nat) (c c2 : CPU) (h : step c = .halted c2) :
    run (fuel + 1) c = .halted c2 := by
  rw [run_succ, h]

theorem step_eq (c : CPU) (h : c.program_counter < MEM_SIZE) :
    step c = afterFetch { c with program_counter := c.program_counter + 1 }
      (c.memory c.program_counter) := by
  unfold step
  rw [mem_read_eq c _ h]

theorem afterFetch_running (c c2 : CPU) (code : Nat) (op : OpCode)
    (hmap : OPCODES_MAP code = some op)
    (hdisp : dispatch c code op = .ok (some c2)) :
    afterFetch c code =
      if c.program_counter = c2.program_counter then
        .running { c2 with program_counter := c2.program_counter + (op.len - 1) }
      else .running c2 := by
  unfold afterFetch
  rw [hmap]
  dsimp only
  rw [hdisp]

theorem afterFetch_halt (c : CPU) (code : Nat) (op : OpCode)
    (hmap : OPCODES_MAP code = some op)
    (hdisp : dispatch c code op = .ok none) :
    afterFetch c code = .halted c := by
  unfold afterFetch
  rw [hmap]
  dsimp only
  rw [hdisp]

theorem lda_eq (c : CPU) (mode : AddressingMode) (addr v : Nat)
    (hga : get_operand_address c mode = .ok addr)
    (hread : mem_read c addr = .ok v) :
    lda c mode = .ok (update_zero_and_negative_flags
      { c with register_a := v } v) := by
  unfold lda
  rw [hga, ok_bind, hread, ok_bind]
  rfl

theorem sta_eq (c : CPU) (mode : AddressingMode) (addr : Nat)
    (hga : get_operand_address c mode = .ok addr) (hb : addr < MEM_SIZE) :
    sta c mode = .ok { c with memory := fun x =>
      if x = addr then c.register_a else c.memory x } := by
  unfold sta
  rw [hga, ok_bind, mem_write_eq c addr _ hb]

theorem goa_zero_page (c : CPU) (h : c.program_counter < MEM_SIZE) :
    get_operand_address c .ZeroPage = .ok (c.memory c.program_counter) := by
  unfold get_operand_address
  exact mem_read_eq c _ h

theorem goa_zero_page_x (c : CPU) (h : c.program_counter < MEM_SIZE) :
    get_operand_address c .ZeroPage_X =
      .ok ((c.memory c.program_counter + c.register_x) % 256) := by
  unfold get_operand_address
  rw [mem_read_eq c _ h, ok_bind]
  rfl

theorem step_lda_imm (c : CPU) (base b : Nat)
    (hpc : c.program_counter = base)
    (hfit : base + 2 ≤ MEM_SIZE)
    (h0 : c.memory base = 0xa9) (h1 : c.memory (base + 1) = b) :
    step c = .running (update_zero_and_negative_flags
      { c with register_a := b, program_counter := base + 2 } b) := by
  have hm : MEM_SIZE = 65535 := rfl
  rw [hm] at hfit
  have hdisp : dispatch { c with program_counter := base + 1 } 0xa9
      ⟨0xa9, "LDA", 2, .Immediate⟩ =
      .ok (some (update_zero_and_negative_flags
        { c with program_counter := base + 1, register_a := b } b)) := by
    show (lda { c with program_counter := base + 1 } AddressingMode.Immediate).map some = _
    rw [lda_eq { c with program_counter := base + 1 } .Immediate (base + 1) b rfl
      (by rw [mem_read_eq _ _ (by rw [hm]; omega)]; exact congrArg Except.ok h1)]
    rfl
  rw [step_eq c (by rw [hpc, hm]; omega), hpc, h0,
    afterFetch_running _ _ 0xa9 ⟨0xa9, "LDA", 2, .Immediate⟩ rfl hdisp]
  rw [if_pos (show ({ c with program_counter := base + 1 } : CPU).program_counter =
      (update_zero_and_negative_flags
        { c with program_counter := base + 1, register_a := b } b).program_counter
      from rfl)]
  rfl

theorem step_lda_zp (c : CPU) (base b : Nat)
    (hpc : c.program_counter = base)
    (hfit : base + 2 ≤ MEM_SIZE) (hb : b < 256)
    (h0 : c.memory base = 0xa5) (h1 : c.memory (base + 1) = b) :
    step c = .running (update_zero_and_negative_flags
      { c with register_a := c.memory b, program_counter := base + 2 }
      (c.memory b)) := by
  have hm : MEM_SIZE = 65535 := rfl
  rw [hm] at hfit
  have hga : get_operand_address { c with program_counter := base + 1 } .ZeroPage =
      .ok b := by
    rw [goa_zero_page _ (show base + 1 < MEM_SIZE by rw [hm]; omega)]
    exact congrArg Except.ok h1
  have hdisp : dispatch { c with program_counter := base + 1 } 0xa5
      ⟨0xa5, "LDA", 2, .ZeroPage⟩ =
      .ok (some (update_zero_and_negative_flags
        { c with program_counter := base + 1, register_a := c.memory b }
        (c.memory b))) := by
    show (lda { c with program_counter := base + 1 } AddressingMode.ZeroPage).map some = _
    rw [lda_eq { c with program_counter := base + 1 } .ZeroPage b (c.memory b) hga
      (by rw [mem_read_eq _ _ (show b < MEM_SIZE by rw [hm]; omega)])]
    rfl
  rw [step_eq c (by rw [hpc, hm]; omega), hpc, h0,
    afterFetch_running _ _ 0xa5 ⟨0xa5, "LDA", 2, .ZeroPage⟩ rfl hdisp]
  rw [if_pos (show ({ c with program_counter := base + 1 } : CPU).program_counter =
      (update_zero_and_negative_flags
        { c with program_counter := base + 1, register_a := c.memory b }
        (c.memory b)).program_counter from rfl)]
  rfl

theorem step_lda_zpx (c : CPU) (base b : Nat)
    (hpc : c.program_counter = base)
    (hfit : base + 2 ≤ MEM_SIZE)
    (h0 : c.memory base = 0xb5) (h1 : c.memory (base + 1) = b) :
    step c = .running (update_zero_and_negative_flags
      { c with register_a := c.memory ((b + c.register_x) % 256),
               program_counter := base + 2 }
      (c.memory ((b + c.register_x) % 256))) := by
  have hm : MEM_SIZE = 65535 := rfl
  rw [hm] at hfit
  have hga : get_operand_address { c with program_counter := base + 1 } .ZeroPage_X =
      .ok ((b + c.register_x) % 256) := by
    rw [goa_zero_page_x _ (show base + 1 < MEM_SIZE by rw [hm]; omega)]
    show Except.ok ((c.memory (base + 1) + c.register_x) % 256) = _
    rw [h1]
  have hdisp : dispatch { c with program_counter := base + 1 } 0xb5
      ⟨0xb5, "LDA", 2, .ZeroPage_X⟩ =
      .ok (some (update_zero_and_negative_flags
        { c with program_counter := base + 1,
                 register_a := c.memory ((b + c.register_x) % 256) }
        (c.memory ((b + c.register_x) % 256)))) := by
    show (lda { c with program_counter := base + 1 } AddressingMode.ZeroPage_X).map some = _
    rw [lda_eq { c with program_counter := base + 1 } .ZeroPage_X
      ((b + c.register_x) % 256) (c.memory ((b + c.register_x) % 256)) hga
      (by rw [mem_read_eq _ _ (show (b + c.register_x) % 256 < MEM_SIZE by rw [hm]; omega)])]
    rfl
  rw [step_eq c (by rw [hpc, hm]; omega), hpc, h0,
    afterFetch_running _ _ 0xb5 ⟨0xb5, "LDA", 2, .ZeroPage_X⟩ rfl hdisp]
  rw [if_pos (show ({ c with program_counter := base + 1 } : CPU).program_counter =
      (update_zero_and_negative_flags
        { c with program_counter := base + 1,
                 register_a := c.memory ((b + c.register_x) % 256) }
        (c.memory ((b + c.register_x) % 256))).program_counter from rfl)]
  rfl

theorem step_sta_zp (c : CPU) (base b : Nat)
    (hpc : c.program_counter = base)
    (hfit : base + 2 ≤ MEM_SIZE) (hb : b < 256)
    (h0 : c.memory base = 0x85) (h1 : c.memory (base + 1) = b) :
    step c = .running
      { c with memory := fun x => if x = b then c.register_a else c.memory x,
               program_counter := base + 2 } := by
  have hm : MEM_SIZE = 65535 := rfl
  rw [hm] at hfit
  have hga : get_operand_address { c with program_counter := base + 1 } .ZeroPage =
      .ok b := by
    rw [goa_zero_page _ (show base + 1 < MEM_SIZE by rw [hm]; omega)]
    exact congrArg Except.ok h1
  have hdisp : dispatch { c with program_counter := base + 1 } 0x85
      ⟨0x85, "STA", 2, .ZeroPage⟩ =
      .ok (some
        { c with
            program_counter := base + 1,
            memory := fun x => if x = b then c.register_a else c.memory x }) := by
    show (sta { c with program_counter := base + 1 } AddressingMode.ZeroPage).map some = _
    rw [sta_eq { c with program_counter := base + 1 } .ZeroPage b hga
      (show b < MEM_SIZE by rw [hm]; omega)]
    rfl
  rw [step_eq c (by rw [hpc, hm]; omega), hpc, h0,
    afterFetch_running _ _ 0x85 ⟨0x85, "STA", 2, .ZeroPage⟩ rfl hdisp]
  rw [if_pos (show ({ c with program_counter := base + 1 } : CPU).program_counter =
      ({ c with
            program_counter := base + 1,
            memory := fun x => if x = b then c.register_a else c.memory x } : CPU).program_counter
      from rfl)]
  rfl

theorem step_sta_zpx (c : CPU) (base b : Nat)
    (hpc : c.program_counter = base)
    (hfit : base + 2 ≤ MEM_SIZE)
    (h0 : c.memory base = 0x95) (h1 : c.memory (base + 1) = b) :
    step c = .running
      { c with
          program_counter := base + 2,
          memory := fun x =>
            if x = (b + c.register_x) % 256 then c.register_a else c.memory x } := by
  have hm : MEM_SIZE = 65535 := rfl
  rw [hm] at hfit
  have hga : get_operand_address { c with program_counter := base + 1 } .ZeroPage_X =
      .ok ((b + c.register_x) % 256) := by
    rw [goa_zero_page_x _ (show base + 1 < MEM_SIZE by rw [hm]; omega)]
    show Except.ok ((c.memory (base + 1) + c.register_x) % 256) = _
    rw [h1]
  have hdisp : dispatch { c with program_counter := base + 1 } 0x95
      ⟨0x95, "STA", 2, .ZeroPage_X⟩ =
      .ok (some
        { c with
            program_counter := base + 1,
            memory := fun x =>
              if x = (b + c.register_x) % 256 then c.register_a else c.memory x }) := by
    show (sta { c with program_counter := base + 1 } AddressingMode.ZeroPage_X).map some = _
    rw [sta_eq { c with program_counter := base + 1 } .ZeroPage_X
      ((b + c.register_x) % 256) hga
      (show (b + c.register_x) % 256 < MEM_SIZE by rw [hm]; omega)]
    rfl
  rw [step_eq c (by rw [hpc, hm]; omega), hpc, h0,
    afterFetch_running _ _ 0x95 ⟨0x95, "STA", 2, .ZeroPage_X⟩ rfl hdisp]
  rw [if_pos (show ({ c with program_counter := base + 1 } : CPU).program_counter =
      ({ c with
            program_counter := base + 1,
            memory := fun x =>
              if x = (b + c.register_x) % 256 then c.register_a else c.memory x } : CPU).program_counter
      from rfl)]
  rfl

theorem step_tax (c : CPU) (base : Nat)
    (hpc : c.program_counter = base)
    (hfit : base + 1 ≤ MEM_SIZE)
    (h0 : c.memory base = 0xaa) :
    step c = .running (update_zero_and_negative_flags
      { c with register_x := c.register_a, program_counter := base + 1 }
      c.register_a) := by
  have hm : MEM_SIZE = 65535 := rfl
  rw [hm] at hfit
  rw [step_eq c (by rw [hpc, hm]; omega), hpc, h0,
    afterFetch_running _ (tax { c with program_counter := base + 1 })
      0xaa ⟨0xaa, "TAX", 1, .NoneAddressing⟩ rfl rfl]
  rw [if_pos (show ({ c with program_counter := base + 1 } : CPU).program_counter =
      (tax { c with program_counter := base + 1 }).program_counter from rfl)]
  rfl

theorem step_inx (c : CPU) (base : Nat)
    (hpc : c.program_counter = base)
    (hfit : base + 1 ≤ MEM_SIZE)
    (h0 : c.memory base = 0xe8) :
    step c = .running (update_zero_and_negative_flags
      { c with register_x := (c.register_x + 1) % 256, program_counter := base + 1 }
      ((c.register_x + 1) % 256)) := by
  have hm : MEM_SIZE = 65535 := rfl
  rw [hm] at hfit
  rw [step_eq c (by rw [hpc, hm]; omega), hpc, h0,
    afterFetch_running _ (inx { c with program_counter := base + 1 })
      0xe8 ⟨0xe8, "INX", 1, .NoneAddressing⟩ rfl rfl]
  rw [if_pos (show ({ c with program_counter := base + 1 } : CPU).program_counter =
      (inx { c with program_counter := base + 1 }).program_counter from rfl)]
  rfl

theorem step_brk (c : CPU) (base : Nat)
    (hpc : c.program_counter = base)
    (hfit : base + 1 ≤ MEM_SIZE)
    (h0 : c.memory base = 0x00) :
    step c = .halted { c with program_counter := base + 1 } := by
  have hm : MEM_SIZE = 65535 := rfl
  rw [hm] at hfit
  rw [step_eq c (by rw [hpc, hm]; omega), hpc, h0,
    afterFetch_halt _ 0x00 ⟨0x00, "BRK", 1, .NoneAddressing⟩ rfl rfl]

/-- One safe instruction executes to a `running` state whose program
counter has advanced by the instruction's byte length and whose memory
agrees with the old one everywhere at or above 0x100. -/
theorem step_safe (c : CPU) (i : Inst) (tail : List Nat) (base : Nat)
    (hsafe : SafeInst i)
    (_hbase : 0x100 ≤ base)
    (hfit : base + (instBytes i).length + tail.length ≤ MEM_SIZE)
    (hpc : c.program_counter = base)
    (henc : bytesAt c.memory base (instBytes i ++ tail)) :
    ∃ c2, step c = .running c2
      ∧ c2.program_counter = base + (instBytes i).length
      ∧ (∀ a, 0x100 ≤ a → c2.memory a = c.memory a) := by
  have hm : MEM_SIZE = 65535 := rfl
  cases hsafe with
  | lda_imm b hb =>
    rw [show instBytes ⟨0xa9, [b]⟩ ++ tail = 0xa9 :: b :: tail from rfl,
      bytesAt_cons] at henc
    obtain ⟨h0, henc⟩ := henc
    rw [bytesAt_cons] at henc
    obtain ⟨h1, -⟩ := henc
    refine ⟨_, step_lda_imm c base b hpc (by rw [hm] at hfit ⊢; have h2 : base + 2 + tail.length ≤ 65535 := hfit; omega) h0 h1,
      rfl, fun a _ => rfl⟩
  | lda_zp b hb =>
    rw [show instBytes ⟨0xa5, [b]⟩ ++ tail = 0xa5 :: b :: tail from rfl,
      bytesAt_cons] at henc
    obtain ⟨h0, henc⟩ := henc
    rw [bytesAt_cons] at henc
    obtain ⟨h1, -⟩ := henc
    refine ⟨_, step_lda_zp c base b hpc (by rw [hm] at hfit ⊢; have h2 : base + 2 + tail.length ≤ 65535 := hfit; omega) hb h0 h1,
      rfl, fun a _ => rfl⟩
  | lda_zpx b hb =>
    rw [show instBytes ⟨0xb5, [b]⟩ ++ tail = 0xb5 :: b :: tail from rfl,
      bytesAt_cons] at henc
    obtain ⟨h0, henc⟩ := henc
    rw [bytesAt_cons] at henc
    obtain ⟨h1, -⟩ := henc
    refine ⟨_, step_lda_zpx c base b hpc (by rw [hm] at hfit ⊢; have h2 : base + 2 + tail.length ≤ 65535 := hfit; omega) h0 h1,
      rfl, fun a _ => rfl⟩
  | sta_zp b hb =>
    rw [show instBytes ⟨0x85, [b]⟩ ++ tail = 0x85 :: b :: tail from rfl,
      bytesAt_cons] at henc
    obtain ⟨h0, henc⟩ := henc
    rw [bytesAt_cons] at henc
    obtain ⟨h1, -⟩ := henc
    refine ⟨_, step_sta_zp c base b hpc (by rw [hm] at hfit ⊢; have h2 : base + 2 + tail.length ≤ 65535 := hfit; omega) hb h0 h1,
      rfl, fun a ha => ?_⟩
    dsimp only
    rw [if_neg (by omega)]
  | sta_zpx b hb =>
    rw [show instBytes ⟨0x95, [b]⟩ ++ tail = 0x95 :: b :: tail from rfl,
      bytesAt_cons] at henc
    obtain ⟨h0, henc⟩ := henc
    rw [bytesAt_cons] at henc
    obtain ⟨h1, -⟩ := henc
    refine ⟨_, step_sta_zpx c base b hpc (by rw [hm] at hfit ⊢; have h2 : base + 2 + tail.length ≤ 65535 := hfit; omega) h0 h1,
      rfl, fun a ha => ?_⟩
    dsimp only
    rw [if_neg (by omega)]
  | tax_inst =>
    rw [show instBytes ⟨0xaa, []⟩ ++ tail = 0xaa :: tail from rfl,
      bytesAt_cons] at henc
    obtain ⟨h0, -⟩ := henc
    refine ⟨_, step_tax c base hpc (by rw [hm] at hfit ⊢; have h2 : base + 1 + tail.length ≤ 65535 := hfit; omega) h0,
      rfl, fun a _ => rfl⟩
  | inx_inst =>
    rw [show instBytes ⟨0xe8, []⟩ ++ tail = 0xe8 :: tail from rfl,
      bytesAt_cons] at henc
    obtain ⟨h0, -⟩ := henc
    refine ⟨_, step_inx c base hpc (by rw [hm] at hfit ⊢; have h2 : base + 1 + tail.length ≤ 65535 := hfit; omega) h0,
      rfl, fun a _ => rfl⟩

/-- Core induction for safe programs: a safe instruction sequence followed
by a BRK byte runs to a halt in exactly one loop iteration per
instruction, the program counter tracking the byte length of the
instructions executed so far. -/
theorem run_safe_aux (prog : List Inst) (base : Nat) (c : CPU)
    (hsafe : ∀ i ∈ prog, SafeInst i)
    (hbase : 0x100 ≤ base)
    (hfit : base + (progBytes prog).length + 1 ≤ MEM_SIZE)
    (hpc : c.program_counter = base)
    (henc : bytesAt c.memory base (progBytes prog ++ [0x00])) :
    (∃ cf, run (prog.length + 1) c = .halted cf
        ∧ cf.program_counter = base + (progBytes prog).length + 1)
    ∧ (∀ k, k ≤ prog.length →
        ∃ ck, run k c = .running ck
          ∧ ck.program_counter = base + (progBytes (List.take k prog)).length) := by
  induction prog generalizing base c with
  | nil =>
    rw [show progBytes [] ++ [0x00] = [0x00] from rfl, bytesAt_cons] at henc
    obtain ⟨h0, -⟩ := henc
    have hbrk := step_brk c base hpc hfit h0
    constructor
    · exact ⟨_, run_succ_halted 0 c _ hbrk, rfl⟩
    · intro k hk
      have hk0 : k = 0 := by simpa using hk
      subst hk0
      exact ⟨c, rfl, by rw [hpc]; rfl⟩
  | cons i rest ih =>
    have hsafe_i : SafeInst i := hsafe i (List.mem_cons_self i rest)
    have hsafe_rest : ∀ j ∈ rest, SafeInst j := fun j hj =>
      hsafe j (List.mem_cons_of_mem i hj)
    have hlen : (progBytes (i :: rest)).length =
        (instBytes i).length + (progBytes rest).length := by
      show (instBytes i ++ progBytes rest).length = _
      rw [List.length_append]
    rw [show progBytes (i :: rest) ++ [0x00] =
        instBytes i ++ (progBytes rest ++ [0x00]) from by
      show (instBytes i ++ progBytes rest) ++ [0x00] = _
      rw [List.append_assoc]] at henc
    obtain ⟨c2, hstep, hpc2, hmem2⟩ :=
      step_safe c i (progBytes rest ++ [0x00]) base hsafe_i hbase
        (by rw [List.length_append, List.length_singleton]
            rw [hlen] at hfit
            omega)
        hpc henc
    have henc2 : bytesAt c2.memory (base + (instBytes i).length)
        (progBytes rest ++ [0x00]) := by
      apply bytesAt_of_agree hmem2 (by omega)
      exact (bytesAt_append.mp henc).2
    have IH := ih (base + (instBytes i).length) c2 hsafe_rest
      (by omega) (by rw [hlen] at hfit; omega) hpc2 henc2
    constructor
    · obtain ⟨cf, hrun, hcf⟩ := IH.1
      refine ⟨cf, ?_, ?_⟩
      · exact (run_succ_running (rest.length + 1) c c2 hstep).trans hrun
      · rw [hcf, hlen]
        omega
    · intro k hk
      match k with
      | 0 => exact ⟨c, rfl, by rw [hpc]; rfl⟩
      | j + 1 =>
        have hj : j ≤ rest.length := by simp at hk; omega
        obtain ⟨ck, hrun, hck⟩ := IH.2 j hj
        refine ⟨ck, ?_, ?_⟩
        · exact (run_succ_running j c c2 hstep).trans hrun
        · rw [hck]
          show _ = base + (instBytes i ++ progBytes (List.take j rest)).length
          rw [List.length_append]
          omega

/-- Claim C2, amended.  For a program of supported opcodes that cannot
modify its own unexecuted bytes — here: loads via Immediate, ZeroPage or
ZeroPage,X, stores confined to the zero page (ZeroPage or ZeroPage,X),
TAX and INX, followed by a final BRK, encoded at a base at or above 0x100
and fitting the memory array — `run` reaches the halt opcode in exactly
one loop iteration per instruction (`prog.length + 1` of them, and is
still running after any fewer), and after each of the first `k`
instructions the program counter equals its initial value plus the sum of
the byte lengths of those instructions; each of those lengths is the
`len` that `OPCODES_MAP` declares for the opcode.  Unrestricted stores
break the claim — see the self-modification counterexample. -/
theorem run_safe_program (prog : List Inst) (base : Nat) (c : CPU)
    (hsafe : ∀ i ∈ prog, SafeInst i)
    (hbase : 0x100 ≤ base)
    (hfit : base + (progBytes prog).length + 1 ≤ MEM_SIZE)
    (hpc : c.program_counter = base)
    (henc : bytesAt c.memory base (progBytes prog ++ [0x00])) :
    (∀ i ∈ prog, ∃ op, OPCODES_MAP i.code = some op
        ∧ op.len = (instBytes i).length)
    ∧ (∃ cf, run (prog.length + 1) c = .halted cf
        ∧ cf.program_counter = base + (progBytes prog).length + 1)
    ∧ (∀ k, k ≤ prog.length →
        ∃ ck, run k c = .running ck
          ∧ ck.program_counter = base + (progBytes (List.take k prog)).length) := by
  obtain ⟨h1, h2⟩ := run_safe_aux prog base c hsafe hbase hfit hpc henc
  refine ⟨?_, h1, h2⟩
  intro i hi
  cases hsafe i hi with
  | lda_imm b hb => exact ⟨_, rfl, rfl⟩
  | lda_zp b hb => exact ⟨_, rfl, rfl⟩
  | lda_zpx b hb => exact ⟨_, rfl, rfl⟩
  | sta_zp b hb => exact ⟨_, rfl, rfl⟩
  | sta_zpx b hb => exact ⟨_, rfl, rfl⟩
  | tax_inst => exact ⟨_, rfl, rfl⟩
  | inx_inst => exact ⟨_, rfl, rfl⟩

/-- Witness for the C2 amended theorem: `LDA #$05; BRK` at 0x8000. -/
theorem run_safe_program_witness :
    (∀ i ∈ [(⟨0xa9, [0x05]⟩ : Inst)], SafeInst i)
    ∧ (0x100 : Nat) ≤ 0x8000
    ∧ 0x8000 + (progBytes [(⟨0xa9, [0x05]⟩ : Inst)]).length + 1 ≤ MEM_SIZE
    ∧ c2TestCPU.program_counter = 0x8000
    ∧ bytesAt c2TestCPU.memory 0x8000 (progBytes [(⟨0xa9, [0x05]⟩ : Inst)] ++ [0x00])
    ∧ ((∀ i ∈ [(⟨0xa9, [0x05]⟩ : Inst)], ∃ op, OPCODES_MAP i.code = some op
          ∧ op.len = (instBytes i).length)
      ∧ (∃ cf, run ([(⟨0xa9, [0x05]⟩ : Inst)].length + 1) c2TestCPU = .halted cf
          ∧ cf.program_counter = 0x8000 + (progBytes [(⟨0xa9, [0x05]⟩ : Inst)]).length + 1)
      ∧ (∀ k, k ≤ [(⟨0xa9, [0x05]⟩ : Inst)].length →
          ∃ ck, run k c2TestCPU = .running ck
            ∧ ck.program_counter =
                0x8000 + (progBytes (List.take k [(⟨0xa9, [0x05]⟩ : Inst)])).length)) := by
  have hsafe : ∀ i ∈ [(⟨0xa9, [0x05]⟩ : Inst)], SafeInst i := by
    intro i hi
    rw [List.mem_singleton] at hi
    subst hi
    exact SafeInst.lda_imm 0x05 (by omega)
  exact ⟨hsafe, by decide, by decide, rfl, by decide,
    run_safe_program [(⟨0xa9, [0x05]⟩ : Inst)] 0x8000 c2TestCPU hsafe
      (by decide) (by decide) rfl (by decide)⟩

/-- Claim C2 counterexample: the program `LDA #$02; STA $8005; BRK`
consists of three instructions drawn solely from the supported opcode
families (LDA, STA, BRK all have table entries), yet `run` does not reach
the halt opcode in three loop iterations: the store writes 0x02 over the
BRK byte at 0x8005 — inside the program image — and the third fetch
aborts with the unrecognized-opcode panic instead of halting.  The claim,
universally quantified over programs of supported opcodes, is therefore
false for self-modifying ones. -/
theorem self_modifying_counterexample :
    (OPCODES_MAP 0xa9).isSome = true
    ∧ (OPCODES_MAP 0x8d).isSome = true
    ∧ (OPCODES_MAP 0x00).isSome = true
    ∧ load_and_run CPU.new [0xa9, 0x02, 0x8d, 0x05, 0x80, 0x00] 3 =
        .fatal (.unrecognizedOpcode 0x02) :=
  ⟨rfl, rfl, rfl, rfl⟩

end Flemu
